import Mathlib

/-!
Verification of the JSON semi-beautifier
(src/test_scenarios/json_semi_beautifier.py).

The embedding models JSON values as a tagged union (`Json`), Python strings
as `List Char`, and the three configuration parameters of `SemiBeautifier`
as a `Config` record of naturals.  The functions `dumps` (Python
`json.dumps` with explicit separators and `ensure_ascii` escaping on
integer-valued numbers), `shouldInline` (`SemiBeautifier.should_inline`),
and `formatValue` (`SemiBeautifier.format_value`) are direct translations
of the source.  `beautify` is `SemiBeautifier.beautify`.
-/

/-- A JSON value: null, boolean, number, string, array, object.
Numbers are modelled as integers (float formatting is outside the scope
of the claims), Python strings as lists of characters, and objects as
ordered association lists, matching insertion-ordered Python dicts. -/
inductive Json where
  | null
  | bool (b : Bool)
  | num (n : Int)
  | str (s : List Char)
  | arr (elts : List Json)
  | obj (entries : List (List Char × Json))

instance : Inhabited Json := ⟨Json.null⟩

/-- The characters of a string literal, used to write Python strings. -/
def toL (s : String) : List Char := s.data

/-- The three constructor parameters of `SemiBeautifier.__init__`:
`max_inline_length`, `max_inline_items`, `indent` (all non-negative in
any valid configuration). -/
structure Config where
  maxInlineLength : Nat
  maxInlineItems : Nat
  indentWidth : Nat

/-- The default configuration (80, 3, 4) from `__init__` defaults. -/
def defaultConfig : Config := ⟨80, 3, 4⟩

/-- The Python expression indent_str * depth: the indentation prefix at a nesting depth. -/
def indentOf (cfg : Config) (depth : Nat) : List Char :=
  List.replicate (depth * cfg.indentWidth) ' '

/-- Lower-case hexadecimal digit, as produced by Python format(n, x). -/
def hexDigit (n : Nat) : Char :=
  if n < 10 then Char.ofNat (48 + n) else Char.ofNat (87 + n)

/-- A six-character JSON escape of one code unit value. -/
def uEsc (n : Nat) : List Char :=
  ['\\', 'u', hexDigit (n / 4096 % 16), hexDigit (n / 256 % 16),
   hexDigit (n / 16 % 16), hexDigit (n % 16)]

/-- Escaping of one character by `json.dumps` with `ensure_ascii=True`:
backslash and quote get two-character escapes, the five named control
characters get their short forms, all other characters outside the
printable ASCII range 0x20 to 0x7e are emitted as backslash-u escapes
(code points beyond 0xFFFF as a surrogate pair). -/
def escapeChar (c : Char) : List Char :=
  if c = '"' then ['\\', '"']
  else if c = '\\' then ['\\', '\\']
  else if c = '\n' then ['\\', 'n']
  else if c = '\r' then ['\\', 'r']
  else if c = '\t' then ['\\', 't']
  else if c = '\x08' then ['\\', 'b']
  else if c = '\x0c' then ['\\', 'f']
  else if c.toNat < 32 then uEsc c.toNat
  else if c.toNat < 127 then [c]
  else if c.toNat < 65536 then uEsc c.toNat
  else uEsc (55296 + (c.toNat - 65536) / 1024) ++
       uEsc (56320 + (c.toNat - 65536) % 1024)

/-- The JSON encoding of a string: quoted, characters escaped. -/
def encodeString (s : List Char) : List Char :=
  '"' :: (s.map escapeChar).flatten ++ ['"']

/-- Decimal digits of a natural number (fuel-indexed helper; the fuel
`n + 1` always suffices since a number has at most `n + 1` digits). -/
def natCharsAux : Nat → Nat → List Char → List Char
  | 0, _, acc => acc
  | fuel + 1, n, acc =>
      if n < 10 then Char.ofNat (48 + n) :: acc
      else natCharsAux fuel (n / 10) (Char.ofNat (48 + n % 10) :: acc)

/-- Decimal representation of a natural number. -/
def natChars (n : Nat) : List Char := natCharsAux (n + 1) n []

/-- Decimal representation of an integer, as Python repr of an int. -/
def intChars : Int → List Char
  | .ofNat n => natChars n
  | .negSucc n => '-' :: natChars (n + 1)

mutual
/-- Python json.dumps(obj, separators=(isep, ksep)) on a JSON value:
scalars use the canonical literals, arrays and objects are bracketed
with elements joined by the item separator and keys joined to values
by the key separator.  Keys are escaped with `encodeString`. -/
def dumps (isep ksep : List Char) : Json → List Char
  | .null => toL "null"
  | .bool true => toL "true"
  | .bool false => toL "false"
  | .num n => intChars n
  | .str s => encodeString s
  | .arr l => '[' :: dumpsItems isep ksep l ++ [']']
  | .obj kvs => '\x7b' :: dumpsEntries isep ksep kvs ++ ['\x7d']

/-- Array elements of `dumps`, joined by the item separator. -/
def dumpsItems (isep ksep : List Char) : List Json → List Char
  | [] => []
  | [x] => dumps isep ksep x
  | x :: xs => dumps isep ksep x ++ isep ++ dumpsItems isep ksep xs

/-- Object entries of `dumps`: encoded key, key separator, value,
entries joined by the item separator. -/
def dumpsEntries (isep ksep : List Char) : List (List Char × Json) → List Char
  | [] => []
  | [(k, v)] => encodeString k ++ ksep ++ dumps isep ksep v
  | (k, v) :: rest =>
      encodeString k ++ ksep ++ dumps isep ksep v ++ isep ++
      dumpsEntries isep ksep rest
end

/-- Python json.dumps with separators comma and colon: the zero-whitespace compact
encoding used by `should_inline` for its length estimate. -/
def dumpsCompact : Json → List Char := dumps [','] [':']

/-- Python json.dumps with comma-space and colon-space separators: the spaced-compact
one-line form emitted by `format_value` for inline values. -/
def dumpsSpaced : Json → List Char := dumps (toL ", ") (toL ": ")

/-- The fixed JSONLogic operator list from `should_inline`. -/
def operators : List (List Char) :=
  [toL "var", toL "==", toL "!=", toL ">", toL "<", toL ">=", toL "<=",
   toL "in", toL "cat", toL "substr"]

mutual
/-- The method SemiBeautifier.should_inline: scalars are always inline; an object
with exactly one key that is a JSONLogic operator defers to its value;
otherwise an object or array is inline when its item count is within
`maxInlineItems`, every value (object) or element (array) is recursively
inline, and the compact encoding fits in `maxInlineLength`. -/
def shouldInline (cfg : Config) : Json → Bool
  | .null => true
  | .bool _ => true
  | .num _ => true
  | .str _ => true
  | .obj [(k, v)] =>
      if k ∈ operators then shouldInline cfg v
      else if [(k, v)].length > cfg.maxInlineItems then false
      else if allValuesInline cfg [(k, v)] then
        (dumpsCompact (.obj [(k, v)])).length ≤ cfg.maxInlineLength
      else false
  | .obj kvs =>
      if kvs.length > cfg.maxInlineItems then false
      else if allValuesInline cfg kvs then
        (dumpsCompact (.obj kvs)).length ≤ cfg.maxInlineLength
      else false
  | .arr l =>
      if l.length > cfg.maxInlineItems then false
      else if allItemsInline cfg l then
        (dumpsCompact (.arr l)).length ≤ cfg.maxInlineLength
      else false

/-- The values loop of should_inline: every object value must be
recursively inline. -/
def allValuesInline (cfg : Config) : List (List Char × Json) → Bool
  | [] => true
  | (_, v) :: rest => shouldInline cfg v && allValuesInline cfg rest

/-- The elements loop of should_inline: every array element must be
recursively inline. -/
def allItemsInline (cfg : Config) : List Json → Bool
  | [] => true
  | x :: xs => shouldInline cfg x && allItemsInline cfg xs
end

/-- The test isinstance(obj, (str, int, float, bool, type(None))). -/
def isScalar : Json → Bool
  | .null => true
  | .bool _ => true
  | .num _ => true
  | .str _ => true
  | .arr _ => false
  | .obj _ => false

/-- Join pre-rendered lines with a comma and a newline between them
(the loop emitting a comma after every element but the last). -/
def joinLines : List (List Char) → List Char
  | [] => []
  | [x] => x
  | x :: xs => x ++ toL ",\n" ++ joinLines xs

/-- The generic multi-line object layout of `format_value`:
an opening brace, the entry lines joined by comma-newline, a newline,
the closing brace at the object indentation. -/
def genericObjLayout (indent : List Char) (entryLines : List (List Char)) :
    List Char :=
  '\x7b' :: '\n' :: joinLines entryLines ++ '\n' :: indent ++ ['\x7d']

/-- The special bracket layout of `format_value` for the JSONLogic keys
`if`, `and` and `or`: brace, space, quoted key, colon, open bracket, one
element line per array element, closing bracket-brace at the object
indentation. -/
def bracketLayout (indent : List Char) (key : List Char)
    (elemLines : List (List Char)) : List Char :=
  '\x7b' :: ' ' :: '"' :: key ++ toL "\": [\n" ++ joinLines elemLines ++
  '\n' :: indent ++ toL "]\x7d"

/-- The multi-line array layout of `format_value`: open bracket, one
element line per array element, closing bracket at the array
indentation. -/
def multilineArrLayout (indent : List Char) (elemLines : List (List Char)) :
    List Char :=
  '[' :: '\n' :: joinLines elemLines ++ '\n' :: indent ++ [']']

mutual
/-- The method SemiBeautifier.format_value, translated clause by clause:
scalars dump directly; inline-eligible values use the spaced-compact
form; an empty object or array renders as the bare brackets; a single
`if` key over an array of two or more elements, and a single `and`/`or`
key over an array of strictly more than two elements, use the bracket
layout; other objects use the generic layout, whose entry lines embed
the raw key text (as the f-string in the source does); non-empty arrays
of scalars retry the spaced one-line form against `maxInlineLength`
before falling back to the multi-line layout. -/
def formatValue (cfg : Config) : Json → Nat → List Char
  | .null, _ => toL "null"
  | .bool true, _ => toL "true"
  | .bool false, _ => toL "false"
  | .num n, _ => intChars n
  | .str s, _ => encodeString s
  | .obj kvs, depth =>
      if shouldInline cfg (.obj kvs) then dumpsSpaced (.obj kvs)
      else match kvs with
        | [] => toL "\x7b\x7d"
        | [(k, .arr l)] =>
            if k = toL "if" ∧ 2 ≤ l.length then
              bracketLayout (indentOf cfg depth) k (formatItems cfg l depth)
            else if (k = toL "and" ∨ k = toL "or") ∧ 2 < l.length then
              bracketLayout (indentOf cfg depth) k (formatItems cfg l depth)
            else
              genericObjLayout (indentOf cfg depth)
                (formatEntries cfg [(k, .arr l)] depth)
        | kvs2 =>
            genericObjLayout (indentOf cfg depth)
              (formatEntries cfg kvs2 depth)
  | .arr l, depth =>
      if shouldInline cfg (.arr l) then dumpsSpaced (.arr l)
      else match l with
        | [] => toL "[]"
        | l2 =>
            if l2.all isScalar then
              if (dumpsSpaced (.arr l2)).length ≤ cfg.maxInlineLength then
                dumpsSpaced (.arr l2)
              else
                multilineArrLayout (indentOf cfg depth)
                  (formatItems cfg l2 depth)
            else
              multilineArrLayout (indentOf cfg depth) (formatItems cfg l2 depth)

/-- The entry lines of the generic object layout: each line is the next
indentation, a quote, the raw key characters, quote-colon-space, and the
value formatted one level deeper (the key is embedded unescaped exactly
as the source f-string embeds it). -/
def formatEntries (cfg : Config) :
    List (List Char × Json) → Nat → List (List Char)
  | [], _ => []
  | (k, v) :: rest, depth =>
      (indentOf cfg (depth + 1) ++ '"' :: k ++ '"' :: ':' :: ' ' ::
        formatValue cfg v (depth + 1)) :: formatEntries cfg rest depth

/-- The element lines of the bracket and multi-line array layouts: each
line is the next indentation followed by the element formatted one level
deeper. -/
def formatItems (cfg : Config) : List Json → Nat → List (List Char)
  | [], _ => []
  | x :: xs, depth =>
      (indentOf cfg (depth + 1) ++ formatValue cfg x (depth + 1)) ::
      formatItems cfg xs depth
end

/-- The method SemiBeautifier.beautify: format the document at depth 0. -/
def beautify (cfg : Config) (v : Json) : List Char := formatValue cfg v 0

/-- Whether a string ends with a newline character. -/
def endsWithNewline (s : List Char) : Bool :=
  match s.getLast? with
  | some c => c == '\n'
  | none => false

mutual
/-- Nesting height of a JSON value: scalars have height 0, a container
is one above its highest child. -/
def Json.height : Json → Nat
  | .null => 0
  | .bool _ => 0
  | .num _ => 0
  | .str _ => 0
  | .arr l => heightItems l + 1
  | .obj kvs => heightEntries kvs + 1

/-- Greatest height among array elements. -/
def heightItems : List Json → Nat
  | [] => 0
  | x :: xs => max (Json.height x) (heightItems xs)

/-- Greatest height among object values. -/
def heightEntries : List (List Char × Json) → Nat
  | [] => 0
  | (_, v) :: rest => max (Json.height v) (heightEntries rest)
end

mutual
/-- A fuel-indexed evaluator for `should_inline`: it performs exactly the
recursive calls the source procedure performs, spending one unit of fuel
per call, and signals exhaustion with `none`.  Termination of the source
on a value is the statement that some finite fuel yields `some`. -/
def shouldInlineFuel (cfg : Config) : Nat → Json → Option Bool
  | 0, _ => none
  | _ + 1, .null => some true
  | _ + 1, .bool _ => some true
  | _ + 1, .num _ => some true
  | _ + 1, .str _ => some true
  | fuel + 1, .obj [(k, v)] =>
      if k ∈ operators then shouldInlineFuel cfg fuel v
      else if [(k, v)].length > cfg.maxInlineItems then some false
      else match allValuesInlineFuel cfg fuel [(k, v)] with
        | none => none
        | some false => some false
        | some true =>
            some ((dumpsCompact (.obj [(k, v)])).length ≤ cfg.maxInlineLength)
  | fuel + 1, .obj kvs =>
      if kvs.length > cfg.maxInlineItems then some false
      else match allValuesInlineFuel cfg fuel kvs with
        | none => none
        | some false => some false
        | some true =>
            some ((dumpsCompact (.obj kvs)).length ≤ cfg.maxInlineLength)
  | fuel + 1, .arr l =>
      if l.length > cfg.maxInlineItems then some false
      else match allItemsInlineFuel cfg fuel l with
        | none => none
        | some false => some false
        | some true =>
            some ((dumpsCompact (.arr l)).length ≤ cfg.maxInlineLength)

/-- Fuel-indexed form of the object-values loop of `should_inline`. -/
def allValuesInlineFuel (cfg : Config) :
    Nat → List (List Char × Json) → Option Bool
  | _, [] => some true
  | fuel, (_, v) :: rest =>
      match shouldInlineFuel cfg fuel v with
      | none => none
      | some false => some false
      | some true => allValuesInlineFuel cfg fuel rest

/-- Fuel-indexed form of the array-elements loop of `should_inline`. -/
def allItemsInlineFuel (cfg : Config) : Nat → List Json → Option Bool
  | _, [] => some true
  | fuel, x :: xs =>
      match shouldInlineFuel cfg fuel x with
      | none => none
      | some false => some false
      | some true => allItemsInlineFuel cfg fuel xs
end

/-- The array of five integers from the specification example. -/
def fiveInts : Json := .arr [.num 1, .num 2, .num 3, .num 4, .num 5]

/-- The object from the specification example for operator shorthand. -/
def varXObj : Json := .obj [(toL "var", .str (toL "x"))]

/-- An object whose single key is one double-quote character and whose
value is the five-integer array; a well-formed JSON value whose key
needs escaping when emitted. -/
def quoteKeyObj : Json :=
  .obj [([ '"' ], .arr [.num 1, .num 2, .num 3, .num 4, .num 5])]

/-- A two-entry object whose compact encoding has exactly 13
characters. -/
def pairObj : Json := .obj [(toL "a", .num 1), (toL "b", .num 2)]

/-! ## Basic lemmas about the classifier loops -/

theorem allValuesInline_eq_true_iff (cfg : Config)
    (kvs : List (List Char × Json)) :
    allValuesInline cfg kvs = true ↔
      ∀ kv ∈ kvs, shouldInline cfg kv.2 = true := by
  induction kvs with
  | nil => simp [allValuesInline]
  | cons kv rest ih =>
      obtain ⟨k, v⟩ := kv
      simp [allValuesInline, Bool.and_eq_true, ih]

theorem allItemsInline_eq_true_iff (cfg : Config) (l : List Json) :
    allItemsInline cfg l = true ↔ ∀ x ∈ l, shouldInline cfg x = true := by
  induction l with
  | nil => simp [allItemsInline]
  | cons x xs ih => simp [allItemsInline, Bool.and_eq_true, ih]

/-! ## Claim theorems -/

/-- Claim C9: the classifier is deterministic; its verdict depends only
on the value and the configuration. -/
theorem claim_C9_deterministic (cfg₁ cfg₂ : Config) (v₁ v₂ : Json)
    (hv : v₁ = v₂) (hc : cfg₁ = cfg₂) :
    shouldInline cfg₁ v₁ = shouldInline cfg₂ v₂ := by
  subst hv; subst hc; rfl

/-- Witness for claim C9 at a concrete value and configuration. -/
theorem claim_C9_deterministic_witness :
    shouldInline defaultConfig (.num 7) = shouldInline defaultConfig (.num 7) :=
  claim_C9_deterministic defaultConfig defaultConfig (.num 7) (.num 7) rfl rfl

/-- Claim C10: a value can pass the classifier, which measures the
zero-whitespace compact encoding, while the spaced-compact one-line
string the renderer emits is strictly longer than `maxInlineLength`:
witnessed by a two-entry object whose compact encoding has 13 characters
under a configuration with `maxInlineLength = 13`. -/
theorem claim_C10_inline_exceeds_budget :
    shouldInline ⟨13, 3, 4⟩ pairObj = true ∧
    (dumpsCompact pairObj).length = 13 ∧
    (formatValue ⟨13, 3, 4⟩ pairObj 0).length = 16 ∧
    13 < (formatValue ⟨13, 3, 4⟩ pairObj 0).length ∧
    (formatValue ⟨13, 3, 4⟩ pairObj 0).contains '\n' = false := by
  decide

/-- Claim C2 counterexample: for the five-integer array under the default
configuration the classifier does reject it, but the rendered output is
NOT the multi-line one-integer-per-line layout: it is a one-line string
containing no newline at all. -/
theorem claim_C2_counterexample :
    shouldInline defaultConfig fiveInts = false ∧
    decide (formatValue defaultConfig fiveInts 0 =
      toL "[\n    1,\n    2,\n    3,\n    4,\n    5\n]") = false ∧
    (formatValue defaultConfig fiveInts 0).contains '\n' = false := by
  decide

/-- Claim C2 (amended): for the five-integer array under the default
configuration the classifier returns false (5 > 3), but the renderer
emits the spaced-compact one-line form, because every element is a
scalar and that form's 15 characters fit in `maxInlineLength = 80`. -/
theorem claim_C2_amended :
    shouldInline defaultConfig fiveInts = false ∧
    formatValue defaultConfig fiveInts 0 = toL "[1, 2, 3, 4, 5]" := by
  decide

/-- Claim C1 (code bug evaluation): formatting the well-formed object
whose single key is one double-quote character embeds the key unescaped
in the generic layout line, so the output contains three consecutive
quote characters, while the JSON encoding of that key escapes it. -/
theorem claim_C1_raw_key_eval :
    formatValue defaultConfig quoteKeyObj 0 =
      toL "\x7b\n    \"\"\": [1, 2, 3, 4, 5]\n\x7d" ∧
    encodeString ['"'] = toL "\"\\\"\"" ∧
    decide ((toL "\x7b\n    \"\"\": [1, 2, 3, 4, 5]\n\x7d").count '"' % 2 = 0)
      = false := by
  decide

/-- Claim C6: under any configuration whose inline length budget is at
least 2, the empty object and the empty array render as the bare
two-character brackets at every depth. -/
theorem claim_C6_empty_containers (cfg : Config) (d : Nat)
    (h : 2 ≤ cfg.maxInlineLength) :
    formatValue cfg (.obj []) d = toL "\x7b\x7d" ∧
    formatValue cfg (.arr []) d = toL "[]" := by
  have ho : shouldInline cfg (.obj []) = true := by
    simp [shouldInline, allValuesInline, dumpsCompact, dumps, dumpsEntries, h]
  have ha : shouldInline cfg (.arr []) = true := by
    simp [shouldInline, allItemsInline, dumpsCompact, dumps, dumpsItems, h]
  constructor
  · simp [formatValue, ho]
    rfl
  · simp [formatValue, ha]
    rfl

/-- Witness for claim C6 at the default configuration and depth 3. -/
theorem claim_C6_empty_containers_witness :
    formatValue defaultConfig (.obj []) 3 = toL "\x7b\x7d" ∧
    formatValue defaultConfig (.arr []) 3 = toL "[]" :=
  claim_C6_empty_containers defaultConfig 3 (by decide)

/-- Claim C3: a single-key object whose key belongs to the JSONLogic
operator set classifies exactly as its value does, for every
configuration (the wrapper's own item-count and compact-length checks
are bypassed); in particular the object with single key var and value
the string x is always inline and always renders as the spaced-compact
one-line form. -/
theorem claim_C3_operator_shorthand :
    (∀ (cfg : Config) (k : List Char) (v : Json), k ∈ operators →
       shouldInline cfg (.obj [(k, v)]) = shouldInline cfg v) ∧
    (∀ (cfg : Config) (d : Nat),
       shouldInline cfg varXObj = true ∧
       formatValue cfg varXObj d = toL "\x7b\"var\": \"x\"\x7d") := by
  have hop : toL "var" ∈ operators := by decide
  constructor
  · intro cfg k v h
    simp [shouldInline, h]
  · intro cfg d
    have h1 : shouldInline cfg varXObj = true := by
      simp [varXObj, shouldInline, hop]
    refine ⟨h1, ?_⟩
    simp only [varXObj] at h1 ⊢
    simp [formatValue, h1]
    decide

/-- Witness for claim C3: the operator shorthand applied to var over a
four-element array (whose own checks would fail) at the default
configuration. -/
theorem claim_C3_operator_shorthand_witness :
    (toL "var" ∈ operators) ∧
    shouldInline defaultConfig
        (.obj [(toL "var", .arr [.num 1, .num 2, .num 3, .num 4])]) =
      shouldInline defaultConfig (.arr [.num 1, .num 2, .num 3, .num 4]) :=
  ⟨by decide, claim_C3_operator_shorthand.1 defaultConfig (toL "var")
    (.arr [.num 1, .num 2, .num 3, .num 4]) (by decide)⟩

/-- For an object that is not a single-operator-key shorthand, the
classifier follows the generic size, child, and compact-length checks. -/
theorem shouldInline_obj_generic (cfg : Config)
    (kvs : List (List Char × Json))
    (h : ∀ k v, kvs = [(k, v)] → k ∉ operators) :
    shouldInline cfg (.obj kvs) =
      if kvs.length > cfg.maxInlineItems then false
      else if allValuesInline cfg kvs then
        decide ((dumpsCompact (.obj kvs)).length ≤ cfg.maxInlineLength)
      else false := by
  match kvs with
  | [] => simp [shouldInline]
  | [(k, v)] =>
      have hk : k ∉ operators := h k v rfl
      simp [shouldInline, hk]
  | (k1, v1) :: (k2, v2) :: rest => simp [shouldInline]

/-- Claim C4: for every object not matching the single-operator-key rule
and for every array, the classifier accepts exactly when the item count
is within `maxInlineItems`, every value (object) or element (array) is
itself recursively inline, and the zero-whitespace compact encoding of
the whole container is within `maxInlineLength`. -/
theorem claim_C4_generic_rule :
    (∀ (cfg : Config) (kvs : List (List Char × Json)),
       (∀ k v, kvs = [(k, v)] → k ∉ operators) →
       (shouldInline cfg (.obj kvs) = true ↔
         kvs.length ≤ cfg.maxInlineItems ∧
         (∀ kv ∈ kvs, shouldInline cfg kv.2 = true) ∧
         (dumpsCompact (.obj kvs)).length ≤ cfg.maxInlineLength)) ∧
    (∀ (cfg : Config) (l : List Json),
       shouldInline cfg (.arr l) = true ↔
         l.length ≤ cfg.maxInlineItems ∧
         (∀ x ∈ l, shouldInline cfg x = true) ∧
         (dumpsCompact (.arr l)).length ≤ cfg.maxInlineLength) := by
  constructor
  · intro cfg kvs h
    rw [shouldInline_obj_generic cfg kvs h,
        ← allValuesInline_eq_true_iff cfg kvs]
    by_cases h1 : kvs.length > cfg.maxInlineItems
    · simp only [if_pos h1]
      constructor
      · intro hfalse; cases hfalse
      · rintro ⟨h2, -, -⟩; omega
    · by_cases h2 : allValuesInline cfg kvs = true
      · simp only [if_neg h1, h2, if_pos, decide_eq_true_eq]
        constructor
        · intro h3; exact ⟨by omega, trivial, h3⟩
        · rintro ⟨-, -, h3⟩; exact h3
      · simp only [if_neg h1]
        rw [if_neg h2]
        constructor
        · intro hfalse; cases hfalse
        · rintro ⟨-, h3, -⟩; exact absurd h3 h2
  · intro cfg l
    rw [← allItemsInline_eq_true_iff cfg l]
    simp only [shouldInline]
    by_cases h1 : l.length > cfg.maxInlineItems
    · simp only [if_pos h1]
      constructor
      · intro hfalse; cases hfalse
      · rintro ⟨h2, -, -⟩; omega
    · by_cases h2 : allItemsInline cfg l = true
      · simp only [if_neg h1, h2, if_pos, decide_eq_true_eq]
        constructor
        · intro h3; exact ⟨by omega, trivial, h3⟩
        · rintro ⟨-, -, h3⟩; exact h3
      · simp only [if_neg h1]
        rw [if_neg h2]
        constructor
        · intro hfalse; cases hfalse
        · rintro ⟨-, h3, -⟩; exact absurd h3 h2

/-- Witness for claim C4: the rule applied to a concrete two-entry
object and a concrete two-element array at the default configuration. -/
theorem claim_C4_generic_rule_witness :
    shouldInline defaultConfig (.obj [(toL "a", .num 1), (toL "b", .num 2)])
      = true ∧
    shouldInline defaultConfig (.arr [.num 1, .num 2]) = true :=
  ⟨(claim_C4_generic_rule.1 defaultConfig
      [(toL "a", .num 1), (toL "b", .num 2)]
      (by intro k v hkv; simp at hkv)).mpr (by decide),
   (claim_C4_generic_rule.2 defaultConfig [.num 1, .num 2]).mpr (by decide)⟩

/-- Claim C5: a non-inline single-key object with key and or or over an
array of exactly two elements renders with the generic object layout,
not the special bracket layout; the bracket layout triggers for key if
at array length at least 2, and for and / or only at length strictly
greater than 2. -/
theorem claim_C5_bracket_layout_thresholds :
    (∀ (cfg : Config) (d : Nat) (a b : Json),
       shouldInline cfg (.obj [(toL "and", .arr [a, b])]) = false →
       formatValue cfg (.obj [(toL "and", .arr [a, b])]) d =
         genericObjLayout (indentOf cfg d)
           (formatEntries cfg [(toL "and", .arr [a, b])] d)) ∧
    (∀ (cfg : Config) (d : Nat) (a b : Json),
       shouldInline cfg (.obj [(toL "or", .arr [a, b])]) = false →
       formatValue cfg (.obj [(toL "or", .arr [a, b])]) d =
         genericObjLayout (indentOf cfg d)
           (formatEntries cfg [(toL "or", .arr [a, b])] d)) ∧
    (∀ (cfg : Config) (d : Nat) (l : List Json),
       shouldInline cfg (.obj [(toL "if", .arr l)]) = false →
       2 ≤ l.length →
       formatValue cfg (.obj [(toL "if", .arr l)]) d =
         bracketLayout (indentOf cfg d) (toL "if") (formatItems cfg l d)) ∧
    (∀ (cfg : Config) (d : Nat) (k : List Char) (l : List Json),
       shouldInline cfg (.obj [(k, .arr l)]) = false →
       (k = toL "and" ∨ k = toL "or") → 2 < l.length →
       formatValue cfg (.obj [(k, .arr l)]) d =
         bracketLayout (indentOf cfg d) k (formatItems cfg l d)) := by
  have hai : toL "and" ≠ toL "if" := by decide
  have hoi : toL "or" ≠ toL "if" := by decide
  refine ⟨?_, ?_, ?_, ?_⟩
  · intro cfg d a b h
    simp [formatValue, h, hai]
  · intro cfg d a b h
    simp [formatValue, h, hoi]
  · intro cfg d l h h2
    simp [formatValue, h, h2]
  · intro cfg d k l h hk hl
    rcases hk with hk | hk <;> subst hk
    · simp [formatValue, h, hai, hl, Nat.le_of_lt hl]
    · simp [formatValue, h, hoi, hl, Nat.le_of_lt hl]

/-- Witness for claim C5: all four layout rules applied to concrete
non-inline operands at the default configuration. -/
theorem claim_C5_bracket_layout_thresholds_witness :
    (formatValue defaultConfig
       (.obj [(toL "and",
         .arr [.arr [.num 1, .num 2, .num 3, .num 4], .num 5])]) 0 =
     genericObjLayout (indentOf defaultConfig 0)
       (formatEntries defaultConfig
         [(toL "and",
           .arr [.arr [.num 1, .num 2, .num 3, .num 4], .num 5])] 0)) ∧
    (formatValue defaultConfig
       (.obj [(toL "or",
         .arr [.arr [.num 1, .num 2, .num 3, .num 4], .num 5])]) 0 =
     genericObjLayout (indentOf defaultConfig 0)
       (formatEntries defaultConfig
         [(toL "or",
           .arr [.arr [.num 1, .num 2, .num 3, .num 4], .num 5])] 0)) ∧
    (formatValue defaultConfig
       (.obj [(toL "if",
         .arr [.arr [.num 1, .num 2, .num 3, .num 4], .num 5])]) 0 =
     bracketLayout (indentOf defaultConfig 0) (toL "if")
       (formatItems defaultConfig
         [.arr [.num 1, .num 2, .num 3, .num 4], .num 5] 0)) ∧
    (formatValue defaultConfig
       (.obj [(toL "and",
         .arr [.arr [.num 1, .num 2, .num 3, .num 4], .num 5, .num 6])]) 0 =
     bracketLayout (indentOf defaultConfig 0) (toL "and")
       (formatItems defaultConfig
         [.arr [.num 1, .num 2, .num 3, .num 4], .num 5, .num 6] 0)) :=
  ⟨claim_C5_bracket_layout_thresholds.1 defaultConfig 0
      (.arr [.num 1, .num 2, .num 3, .num 4]) (.num 5) (by decide),
   claim_C5_bracket_layout_thresholds.2.1 defaultConfig 0
      (.arr [.num 1, .num 2, .num 3, .num 4]) (.num 5) (by decide),
   claim_C5_bracket_layout_thresholds.2.2.1 defaultConfig 0
      [.arr [.num 1, .num 2, .num 3, .num 4], .num 5] (by decide) (by decide),
   claim_C5_bracket_layout_thresholds.2.2.2 defaultConfig 0 (toL "and")
      [.arr [.num 1, .num 2, .num 3, .num 4], .num 5, .num 6] (by decide)
      (by decide) (by decide)⟩

/-! ## Last-character lemmas for the renderer output -/

theorem getLast?_append_right {c : Char} (s t : List Char)
    (h : t.getLast? = some c) : (s ++ t).getLast? = some c := by
  rw [List.getLast?_append, h]; rfl

theorem getLast?_cons_ne_nil (a : Char) (l : List Char) (h : l ≠ []) :
    (a :: l).getLast? = l.getLast? := by
  show ([a] ++ l).getLast? = l.getLast?
  rw [List.getLast?_append]
  cases hl : l.getLast? with
  | none => exact absurd (List.getLast?_eq_none_iff.mp hl) h
  | some c => rfl

theorem natCharsAux_ne_nil (fuel n : Nat) (acc : List Char)
    (h : acc ≠ []) : natCharsAux fuel n acc ≠ [] := by
  induction fuel generalizing n acc with
  | zero => exact h
  | succ fuel ih =>
      simp only [natCharsAux]
      split
      · simp
      · exact ih _ _ (by simp)

theorem natCharsAux_getLast? (fuel n : Nat) (acc : List Char)
    (h : acc ≠ []) : (natCharsAux fuel n acc).getLast? = acc.getLast? := by
  induction fuel generalizing n acc with
  | zero => rfl
  | succ fuel ih =>
      simp only [natCharsAux]
      split
      · exact getLast?_cons_ne_nil _ _ h
      · rw [ih _ _ (by simp), getLast?_cons_ne_nil _ _ h]

theorem natChars_getLast? (n : Nat) :
    (natChars n).getLast? = some (Char.ofNat (48 + n % 10)) := by
  simp only [natChars, natCharsAux]
  split
  · next h => rw [Nat.mod_eq_of_lt h]; rfl
  · rw [natCharsAux_getLast? _ _ _ (by simp)]; rfl

theorem natChars_ne_nil (n : Nat) : natChars n ≠ [] := by
  simp only [natChars, natCharsAux]
  split
  · simp
  · exact natCharsAux_ne_nil _ _ _ (by simp)

theorem digitChar_beq_newline (n : Nat) :
    (Char.ofNat (48 + n % 10) == '\n') = false := by
  have h : n % 10 < 10 := Nat.mod_lt _ (by norm_num)
  set m := n % 10 with hm
  interval_cases m <;> decide

theorem endsWithNewline_natChars (n : Nat) :
    endsWithNewline (natChars n) = false := by
  simp [endsWithNewline, natChars_getLast? n, digitChar_beq_newline n]

theorem endsWithNewline_intChars (i : Int) :
    endsWithNewline (intChars i) = false := by
  cases i with
  | ofNat n => simpa [intChars] using endsWithNewline_natChars n
  | negSucc n =>
      have h1 : (('-') :: natChars (n + 1)).getLast? =
          some (Char.ofNat (48 + (n + 1) % 10)) := by
        rw [getLast?_cons_ne_nil _ _ (natChars_ne_nil (n + 1))]
        exact natChars_getLast? (n + 1)
      simp [intChars, endsWithNewline, h1, digitChar_beq_newline (n + 1)]

theorem endsWithNewline_encodeString (s : List Char) :
    endsWithNewline (encodeString s) = false := by
  have h : (encodeString s).getLast? = some '"' := by
    show ((['"'] ++ ((s.map escapeChar).flatten ++ ['"']))).getLast? = some '"'
    exact getLast?_append_right _ _ (List.getLast?_concat _)
  simp [endsWithNewline, h]

theorem endsWithNewline_dumps (isep ksep : List Char) (v : Json) :
    endsWithNewline (dumps isep ksep v) = false := by
  cases v with
  | null => simp only [dumps]; decide
  | bool b => cases b <;> simp only [dumps] <;> decide
  | num n => simpa [dumps] using endsWithNewline_intChars n
  | str s => simpa [dumps] using endsWithNewline_encodeString s
  | arr l =>
      have h : (dumps isep ksep (.arr l)).getLast? = some ']' := by
        simp only [dumps, List.getLast?_append]
        rfl
      simp [endsWithNewline, h]
  | obj kvs =>
      have h : (dumps isep ksep (.obj kvs)).getLast? = some '\x7d' := by
        simp only [dumps, List.getLast?_append]
        rfl
      simp [endsWithNewline, h]

theorem endsWithNewline_genericObjLayout (ind : List Char)
    (lines : List (List Char)) :
    endsWithNewline (genericObjLayout ind lines) = false := by
  have h : (genericObjLayout ind lines).getLast? = some '\x7d' := by
    simp only [genericObjLayout, List.getLast?_append]
    rfl
  simp [endsWithNewline, h]

theorem endsWithNewline_bracketLayout (ind key : List Char)
    (lines : List (List Char)) :
    endsWithNewline (bracketLayout ind key lines) = false := by
  have h : (bracketLayout ind key lines).getLast? = some '\x7d' := by
    simp only [bracketLayout, List.getLast?_append]
    rfl
  simp [endsWithNewline, h]

theorem endsWithNewline_multilineArrLayout (ind : List Char)
    (lines : List (List Char)) :
    endsWithNewline (multilineArrLayout ind lines) = false := by
  have h : (multilineArrLayout ind lines).getLast? = some ']' := by
    simp only [multilineArrLayout, List.getLast?_append]
    rfl
  simp [endsWithNewline, h]

theorem endsWithNewline_formatValue (cfg : Config) (v : Json) (d : Nat) :
    endsWithNewline (formatValue cfg v d) = false := by
  cases v with
  | null => simp only [formatValue]; decide
  | bool b => cases b <;> simp only [formatValue] <;> decide
  | num n => simpa [formatValue] using endsWithNewline_intChars n
  | str s => simpa [formatValue] using endsWithNewline_encodeString s
  | obj kvs =>
      rw [formatValue.eq_def]
      dsimp only
      by_cases hs : shouldInline cfg (.obj kvs) = true
      · rw [if_pos hs]
        exact endsWithNewline_dumps _ _ _
      · rw [if_neg hs]
        rcases kvs with - | ⟨⟨k, v⟩, rest⟩
        · show endsWithNewline (toL "\x7b\x7d") = false
          decide
        · rcases rest with - | ⟨kv2, rest2⟩
          · cases v with
            | arr l =>
                dsimp only
                by_cases h1 : k = toL "if" ∧ 2 ≤ l.length
                · rw [if_pos h1]
                  exact endsWithNewline_bracketLayout _ _ _
                · rw [if_neg h1]
                  by_cases h2 : (k = toL "and" ∨ k = toL "or") ∧ 2 < l.length
                  · rw [if_pos h2]
                    exact endsWithNewline_bracketLayout _ _ _
                  · rw [if_neg h2]
                    exact endsWithNewline_genericObjLayout _ _
            | null => exact endsWithNewline_genericObjLayout _ _
            | bool b => exact endsWithNewline_genericObjLayout _ _
            | num n => exact endsWithNewline_genericObjLayout _ _
            | str s => exact endsWithNewline_genericObjLayout _ _
            | obj kvs2 => exact endsWithNewline_genericObjLayout _ _
          · cases v <;> exact endsWithNewline_genericObjLayout _ _
  | arr l =>
      rw [formatValue.eq_def]
      dsimp only
      by_cases hs : shouldInline cfg (.arr l) = true
      · rw [if_pos hs]
        exact endsWithNewline_dumps _ _ _
      · rw [if_neg hs]
        cases l with
        | nil =>
            show endsWithNewline (toL "[]") = false
            decide
        | cons x xs =>
            dsimp only
            by_cases h1 : (x :: xs).all isScalar = true
            · rw [if_pos h1]
              by_cases h2 :
                (dumpsSpaced (.arr (x :: xs))).length ≤ cfg.maxInlineLength
              · rw [if_pos h2]
                exact endsWithNewline_dumps _ _ _
              · rw [if_neg h2]
                exact endsWithNewline_multilineArrLayout _ _
            · rw [if_neg h1]
              exact endsWithNewline_multilineArrLayout _ _

/-- Claim C7: for every well-formed finite JSON value and every
configuration, the string returned by `beautify` does not end with a
newline character. -/
theorem claim_C7_no_trailing_newline (cfg : Config) (v : Json) :
    endsWithNewline (beautify cfg v) = false :=
  endsWithNewline_formatValue cfg v 0

/-! ## Structural induction and the termination of the classifier -/

theorem Json.inductionOn (P : Json → Prop)
    (hnull : P .null) (hbool : ∀ b, P (.bool b)) (hnum : ∀ n, P (.num n))
    (hstr : ∀ s, P (.str s))
    (harr : ∀ l, (∀ x ∈ l, P x) → P (.arr l))
    (hobj : ∀ kvs, (∀ kv ∈ kvs, P kv.2) → P (.obj kvs)) :
    ∀ v, P v
  | .null => hnull
  | .bool b => hbool b
  | .num n => hnum n
  | .str s => hstr s
  | .arr l => harr l (fun x hx =>
      Json.inductionOn P hnull hbool hnum hstr harr hobj x)
  | .obj kvs => hobj kvs (fun kv hkv =>
      Json.inductionOn P hnull hbool hnum hstr harr hobj kv.2)
termination_by v => sizeOf v
decreasing_by
  · have h1 := List.sizeOf_lt_of_mem hx
    simp only [Json.arr.sizeOf_spec]
    omega
  · have h1 := List.sizeOf_lt_of_mem hkv
    have h2 : sizeOf kv.2 < sizeOf kv := by
      obtain ⟨a, b⟩ := kv
      simp only [Prod.mk.sizeOf_spec]
      omega
    simp only [Json.obj.sizeOf_spec]
    omega

theorem height_le_heightItems (x : Json) (l : List Json) (hx : x ∈ l) :
    Json.height x ≤ heightItems l := by
  induction l with
  | nil => cases hx
  | cons y ys ih =>
      rcases List.mem_cons.mp hx with h | h
      · subst h
        simp only [heightItems]
        exact le_max_left _ _
      · exact le_trans (ih h)
          (by simp only [heightItems]; exact le_max_right _ _)

theorem height_le_heightEntries (kv : List Char × Json)
    (kvs : List (List Char × Json)) (hkv : kv ∈ kvs) :
    Json.height kv.2 ≤ heightEntries kvs := by
  induction kvs with
  | nil => cases hkv
  | cons y ys ih =>
      obtain ⟨a, b⟩ := y
      rcases List.mem_cons.mp hkv with h | h
      · subst h
        simp only [heightEntries]
        exact le_max_left _ _
      · exact le_trans (ih h)
          (by simp only [heightEntries]; exact le_max_right _ _)

theorem allValuesInlineFuel_eq (cfg : Config) (fuel : Nat)
    (kvs : List (List Char × Json))
    (h : ∀ kv ∈ kvs,
      shouldInlineFuel cfg fuel kv.2 = some (shouldInline cfg kv.2)) :
    allValuesInlineFuel cfg fuel kvs = some (allValuesInline cfg kvs) := by
  induction kvs with
  | nil => simp [allValuesInlineFuel, allValuesInline]
  | cons kv rest ih =>
      obtain ⟨k, v⟩ := kv
      have hv := h (k, v) (by simp)
      simp only [allValuesInlineFuel, allValuesInline, hv]
      cases hb : shouldInline cfg v with
      | false => simp
      | true => simpa using ih (fun kv hkv => h kv (by simp [hkv]))

theorem allItemsInlineFuel_eq (cfg : Config) (fuel : Nat) (l : List Json)
    (h : ∀ x ∈ l,
      shouldInlineFuel cfg fuel x = some (shouldInline cfg x)) :
    allItemsInlineFuel cfg fuel l = some (allItemsInline cfg l) := by
  induction l with
  | nil => simp [allItemsInlineFuel, allItemsInline]
  | cons x xs ih =>
      have hv := h x (by simp)
      simp only [allItemsInlineFuel, allItemsInline, hv]
      cases hb : shouldInline cfg x with
      | false => simp
      | true => simpa using ih (fun y hy => h y (by simp [hy]))

theorem shouldInlineFuel_eq (cfg : Config) (v : Json) :
    ∀ fuel, Json.height v < fuel →
      shouldInlineFuel cfg fuel v = some (shouldInline cfg v) := by
  induction v using Json.inductionOn with
  | hnull =>
      intro fuel hf
      cases fuel with
      | zero => omega
      | succ f => simp [shouldInlineFuel, shouldInline]
  | hbool b =>
      intro fuel hf
      cases fuel with
      | zero => omega
      | succ f => simp [shouldInlineFuel, shouldInline]
  | hnum n =>
      intro fuel hf
      cases fuel with
      | zero => omega
      | succ f => simp [shouldInlineFuel, shouldInline]
  | hstr s =>
      intro fuel hf
      cases fuel with
      | zero => omega
      | succ f => simp [shouldInlineFuel, shouldInline]
  | harr l ih =>
      intro fuel hf
      cases fuel with
      | zero => omega
      | succ f =>
          have hht : Json.height (.arr l) = heightItems l + 1 := by
            simp [Json.height]
          have hf2 : heightItems l < f := by omega
          have hall : allItemsInlineFuel cfg f l =
              some (allItemsInline cfg l) :=
            allItemsInlineFuel_eq cfg f l (fun x hx =>
              ih x hx f (lt_of_le_of_lt (height_le_heightItems x l hx) hf2))
          simp only [shouldInlineFuel, hall]
          by_cases h1 : l.length > cfg.maxInlineItems
          · simp [h1, shouldInline]
          · cases hb : allItemsInline cfg l <;> simp [h1, hb, shouldInline]
  | hobj kvs ih =>
      intro fuel hf
      cases fuel with
      | zero => omega
      | succ f =>
          have hht : Json.height (.obj kvs) = heightEntries kvs + 1 := by
            simp [Json.height]
          have hf2 : heightEntries kvs < f := by omega
          have hrec : ∀ kv ∈ kvs,
              shouldInlineFuel cfg f kv.2 = some (shouldInline cfg kv.2) :=
            fun kv hkv => ih kv hkv f
              (lt_of_le_of_lt (height_le_heightEntries kv kvs hkv) hf2)
          have hall : allValuesInlineFuel cfg f kvs =
              some (allValuesInline cfg kvs) :=
            allValuesInlineFuel_eq cfg f kvs hrec
          rcases kvs with - | ⟨⟨k, v⟩, rest⟩
          · simp [shouldInlineFuel, hall, shouldInline, allValuesInline]
          · rcases rest with - | ⟨kv2, rest2⟩
            · by_cases hk : k ∈ operators
              · have hv := hrec (k, v) (by simp)
                simp only [shouldInlineFuel, if_pos hk, hv]
                have hsi : shouldInline cfg (.obj [(k, v)]) =
                    shouldInline cfg v := by
                  simp [shouldInline, hk]
                rw [hsi]
              · simp only [shouldInlineFuel, if_neg hk, hall]
                by_cases h1 : cfg.maxInlineItems = 0
                · simp [h1, shouldInline, hk]
                · cases hb : allValuesInline cfg [(k, v)] <;>
                    simp [h1, hb, shouldInline, hk]
            · simp only [shouldInlineFuel, hall]
              by_cases h1 : cfg.maxInlineItems < rest2.length + 2
              · simp [h1, shouldInline]
              · cases hb : allValuesInline cfg ((k, v) :: kv2 :: rest2) <;>
                  simp [h1, hb, shouldInline]

/-- Claim C8: the classifier is total and terminates on every finite
JSON value: the fuel-indexed evaluator, which performs exactly the
recursive calls of the source procedure and reports fuel exhaustion
with none, answers with some verdict on fuel one more than the value
height, and that verdict is the classifier verdict. -/
theorem claim_C8_terminates (cfg : Config) (v : Json) :
    shouldInlineFuel cfg (Json.height v + 1) v =
      some (shouldInline cfg v) :=
  shouldInlineFuel_eq cfg v (Json.height v + 1) (Nat.lt_succ_self _)
